import Mathlib

/-!
Verification development for the MNIST-1D teaching notebooks
(`elcorto/2024-thrill-school-machine-learning`).

Two components are embedded here, following the repository sources:

* the `MNIST1D` dataset adapter of `notebooks/02_convnets.ipynb`
  (deterministic train/validation split via `sklearn.model_selection.train_test_split`,
  min/max normalization statistics computed from the training partition only,
  indexed access via `__len__`/`__getitem__`);
* the epoch-based training loops: the reusable `train_classifier` function of the
  representation-learning notebook and the inline training-loop cell of
  `02_convnets.ipynb` (metric accumulation, metric-log appends, progress printing).

External collaborators (the `mnist1d` sample generator, `torch` models,
optimizers and loss functions, `sklearn` batching) are modelled as opaque
parameters, keeping exactly the call structure of the source.  Machine floats
are modelled by `ℚ`; float32/int64 casts appear as `DType` tags.
-/

/-! ### Python / numpy / sklearn primitives

`sklearn.model_selection.train_test_split(X, y, test_size=p, random_state=seed)`
is an external library call.  Its documented behaviour, used by the source:
a pseudo-random permutation of the `N` row indices determined entirely by
`random_state` (and `N`), whose first `⌈p·N⌉` entries become the test (here:
validation) partition and the remaining entries the train partition; it raises
`ValueError` when either partition would be empty.  The permutation itself is
modelled by a deterministic Fisher-Yates-style shuffle keyed by the seed via a
linear congruential generator; no claim depends on which permutation is
produced, only that it is a permutation determined by `(N, seed)` alone. -/

/-- Linear congruential pseudo-random step (model of the library RNG stream). -/
def lcg (s : ℕ) : ℕ := (1103515245 * s + 12345) % 2 ^ 31

/-- Draw all elements of `l` in pseudo-random order: repeatedly pick index
`s % length` and remove it.  `fuel` bounds the recursion structurally; it is
called with `fuel = l.length`, which consumes `l` entirely. -/
def drawAllGo {α : Type} : ℕ → List α → ℕ → List α
  | 0, _, _ => []
  | _ + 1, [], _ => []
  | fuel + 1, x :: xs, s =>
      let l := x :: xs
      let i := s % l.length
      l.getD i x :: drawAllGo fuel (l.eraseIdx i) (lcg s)

/-- Model of the seed-keyed pseudo-random permutation of `0, …, N-1` used by
`train_test_split(…, random_state=seed)`. -/
def splitPermutation (N seed : ℕ) : List ℕ := drawAllGo N (List.range N) (lcg seed)

/-- Number of test (validation) samples chosen by sklearn for a float
`test_size` `p`: `⌈p · N⌉`. -/
def nTest (N : ℕ) (p : ℚ) : ℕ := (Int.ceil (p * N)).toNat

/-- Validation-partition indices: the first `⌈p·N⌉` entries of the permutation. -/
def testIndices (N : ℕ) (p : ℚ) (seed : ℕ) : List ℕ :=
  (splitPermutation N seed).take (nTest N p)

/-- Train-partition indices: the remaining entries of the permutation. -/
def trainIndices (N : ℕ) (p : ℚ) (seed : ℕ) : List ℕ :=
  (splitPermutation N seed).drop (nTest N p)

/-- `np.min` over all entries of a (non-empty) list; `0` on the empty list
(where numpy would raise — no claim depends on that case). -/
def npMin (l : List ℚ) : ℚ :=
  match l with
  | [] => 0
  | a :: r => r.foldl min a

/-- `np.max` over all entries of a (non-empty) list; `0` on the empty list. -/
def npMax (l : List ℚ) : ℚ :=
  match l with
  | [] => 0
  | a :: r => r.foldl max a

/-- Normalize one bound of a Python slice `l[start:stop]` for axis length `N`:
negative values count from the end, then the result is clamped into `[0, N]`. -/
def pySliceIdx (N : ℕ) (i : ℤ) : ℕ :=
  if i < 0 then (i + N).toNat else min i.toNat N

/-- Python/numpy slice `l[start:stop]` (step 1): never raises, may be empty. -/
def pySlice {α : Type} (l : List α) (start stop : ℤ) : List α :=
  let a := pySliceIdx l.length start
  let b := pySliceIdx l.length stop
  (l.drop a).take (b - a)

deriving instance DecidableEq for Except

/-- Error kinds of the dataset adapter (vocabulary of the specification;
which of them the code actually produces is the subject of the claims). -/
inductive AdapterError : Type
  | invalidConfiguration
  | degenerateData
  | indexOutOfRange
deriving DecidableEq, Repr

/-- Python/numpy integer indexing `l[i]`: negative indices count from the end;
out-of-range indexing raises `IndexError` (modelled as `indexOutOfRange`). -/
def pyGetElem {α : Type} (l : List α) (i : ℤ) : Except AdapterError α :=
  if h : 0 ≤ i ∧ i < l.length then
    .ok (l.get ⟨i.toNat, by omega⟩)
  else if h2 : -(l.length : ℤ) ≤ i ∧ i < 0 then
    .ok (l.get ⟨(i + l.length).toNat, by omega⟩)
  else
    .error .indexOutOfRange

/-! ### The `MNIST1D` dataset adapter (`notebooks/02_convnets.ipynb`, class `MNIST1D`) -/

/-- Tensor element dtype produced by the adapter's `astype` casts. -/
inductive DType : Type
  | float32
  | int64
deriving DecidableEq, Repr

/-- A 2-d tensor (`torch.from_numpy(... .astype(np.float32))` result). -/
structure Tensor2 where
  dtype : DType
  rows : List (List ℚ)
deriving DecidableEq, Repr

/-- A 0-d tensor (`torch.from_numpy(... .astype(np.int64))` result). -/
structure Tensor0 where
  dtype : DType
  val : ℤ
deriving DecidableEq, Repr

/-- The raw generated sample set: output of the external generator
`make_dataset(mnist1d_args)` (`data['x']`, `data['y']`). -/
structure RawData where
  x : List (List ℚ)
  y : List ℤ
deriving DecidableEq, Repr

/-- `X_train` rows selected by the split (`train_test_split` first return). -/
def X_train_of (x : List (List ℚ)) (p : ℚ) (seed : ℕ) : List (List ℚ) :=
  (trainIndices x.length p seed).map (fun i => x.getD i [])

/-- `X_validation` rows selected by the split. -/
def X_validation_of (x : List (List ℚ)) (p : ℚ) (seed : ℕ) : List (List ℚ) :=
  (testIndices x.length p seed).map (fun i => x.getD i [])

/-- `y_train` labels selected by the split. -/
def y_train_of (y : List ℤ) (N : ℕ) (p : ℚ) (seed : ℕ) : List ℤ :=
  (trainIndices N p seed).map (fun i => y.getD i 0)

/-- `y_validation` labels selected by the split. -/
def y_validation_of (y : List ℤ) (N : ℕ) (p : ℚ) (seed : ℕ) : List ℤ :=
  (testIndices N p seed).map (fun i => y.getD i 0)

/-- `self.X_loc = np.min(X_train)` — computed from the training partition only. -/
def X_loc_of (x : List (List ℚ)) (p : ℚ) (seed : ℕ) : ℚ :=
  npMin (X_train_of x p seed).flatten

/-- `self.X_scale = np.max(X_train) - np.min(X_train)`. -/
def X_scale_of (x : List (List ℚ)) (p : ℚ) (seed : ℕ) : ℚ :=
  npMax (X_train_of x p seed).flatten - npMin (X_train_of x p seed).flatten

/-- State of a constructed `MNIST1D` instance (one `DatasetView`). -/
structure MNIST1D where
  is_training : Bool
  data : RawData
  X_loc : ℚ
  X_scale : ℚ
  X : List (List ℚ)
  y : List ℤ
deriving DecidableEq, Repr

/-- `MNIST1D.__init__(train, validation_size, mnist1d_args, seed)`.  The external
generator call `make_dataset(mnist1d_args)` is modelled by passing its output
`data` directly.  The body performs the seed-keyed split, computes `(loc, scale)`
from `X_train` only, and normalizes the selected partition with those statistics;
the only raising path is `train_test_split`'s `ValueError` when a partition
would be empty (`invalidConfiguration`).  There is no validation of `X_scale`:
a constant training partition yields `X_scale = 0` and the division proceeds
(in numpy: silently producing non-finite values; in this `ℚ` model: `x / 0 = 0`). -/
def mnist1dInit (data : RawData) (train : Bool) (validation_size : ℚ) (seed : ℕ) :
    Except AdapterError MNIST1D :=
  let N := data.x.length
  if nTest N validation_size = 0 ∨ N ≤ nTest N validation_size then
    .error .invalidConfiguration
  else
    let loc := X_loc_of data.x validation_size seed
    let scale := X_scale_of data.x validation_size seed
    if train then
      .ok { is_training := train, data := data, X_loc := loc, X_scale := scale,
            X := (X_train_of data.x validation_size seed).map
              (fun row => row.map (fun v => (v - loc) / scale)),
            y := y_train_of data.y N validation_size seed }
    else
      .ok { is_training := train, data := data, X_loc := loc, X_scale := scale,
            X := (X_validation_of data.x validation_size seed).map
              (fun row => row.map (fun v => (v - loc) / scale)),
            y := y_validation_of data.y N validation_size seed }

/-- `MNIST1D.__len__`: `self.X.shape[0]`. -/
def MNIST1D.len (d : MNIST1D) : ℕ := d.X.length

/-- `MNIST1D.__getitem__(index)`:
`X = torch.from_numpy(self.X[index:index+1, ...].astype(np.float32))` — a
numpy *slice*, which never raises and keeps a leading (channel) axis —
and `y = torch.from_numpy(self.y[index,...].astype(np.int64))` — integer
indexing, which raises `IndexError` outside `[-len, len)`. -/
def mnist1dGetitem (d : MNIST1D) (index : ℤ) : Except AdapterError (Tensor2 × Tensor0) := do
  let xRows := pySlice d.X index (index + 1)
  let yVal ← pyGetElem d.y index
  .ok (⟨.float32, xRows⟩, ⟨.int64, yVal⟩)


/-! ### The training loops

Two training loops occur in the sources: the reusable function
`train_classifier(model, optimizer, loss_func, train_dataloader, test_dataloader,
max_epochs, log_every, use_gpu, logs)` of the representation-learning notebook,
and the inline training-loop cell of `02_convnets.ipynb`.  The external
collaborators are opaque parameters:

* `model` — `model(X)` in training or evaluation mode (`model.train()` /
  `model.eval()` toggle the `Bool` argument);
* `loss_func`, `accuracy` — scalar metrics of a prediction against its batch;
* `optStep` — the combined effect of `loss.backward(); optimizer.step();
  optimizer.zero_grad()` on the training state (model parameters plus
  optimizer accumulators).

A batch drawn from a dataloader has type `β`; a prediction has type `γ`;
the training state has type `σ`.  Both loops are embedded with an explicit
trace of their observable events: the per-epoch list of metric appends (in
source order) and the list of epoch indices after which a progress line is
printed. -/

/-- Error kinds of the training loop (vocabulary of the specification:
`emptyIterator`; plus the Python error the code can actually raise:
`ZeroDivisionError` from `sum / len(dataloader)` with an empty dataloader). -/
inductive TrainError : Type
  | zeroDivisionError
  | emptyIterator
deriving DecidableEq, Repr

/-- Keys of the metric log (`train_classifier` uses `logs["train_loss"]`,
`logs["test_loss"]`, `logs["train_acc"]`, `logs["test_acc"]`; the inline
notebook loop uses `results['train_losses']`, `results['validation_losses']`,
`results['train_acc']`, `results['validation_acc']` — `test*`/`validation*`
both denote the evaluation partition and share a key here). -/
inductive MetricName : Type
  | trainLoss
  | testLoss
  | trainAcc
  | testAcc
deriving DecidableEq, Repr

/-- The metric log: one ordered sequence of per-epoch scalars per key. -/
structure Logs where
  train_loss : List ℚ
  test_loss : List ℚ
  train_acc : List ℚ
  test_acc : List ℚ
deriving DecidableEq, Repr

/-- `logs[name].append(v)`. -/
def appendMetric (L : Logs) (m : MetricName) (v : ℚ) : Logs :=
  match m with
  | .trainLoss => { L with train_loss := L.train_loss ++ [v] }
  | .testLoss => { L with test_loss := L.test_loss ++ [v] }
  | .trainAcc => { L with train_acc := L.train_acc ++ [v] }
  | .testAcc => { L with test_acc := L.test_acc ++ [v] }

/-- Perform a sequence of appends, left to right. -/
def applyAppends (L : Logs) (evs : List (MetricName × ℚ)) : Logs :=
  evs.foldl (fun acc ev => appendMetric acc ev.1 ev.2) L

/-- Python scalar division `a / n`: raises `ZeroDivisionError` when `n == 0`
(the sums here are Python `float`s, so `0.0 / 0` raises — it does not produce
`NaN`). -/
def pydiv (a : ℚ) (n : ℕ) : Except TrainError ℚ :=
  if n = 0 then .error .zeroDivisionError else .ok (a / n)

section TrainingLoops

variable {σ β γ : Type}
variable (model : σ → Bool → β → γ)
variable (loss_func : γ → β → ℚ)
variable (accuracy : γ → β → ℚ)
variable (optStep : σ → β → σ)

/-- The training phase of one `train_classifier` epoch: for each batch,
forward pass (training mode), loss, backward/step/zero_grad, and accumulation
of `train_loss_epoch_sum` and `train_acc_epoch_sum` (both computed from the
pre-update prediction, as in the source). -/
def tcTrainPhase (s : σ) (batches : List β) : σ × ℚ × ℚ :=
  batches.foldl
    (fun acc b =>
      let y_pred := model acc.1 true b
      let loss := loss_func y_pred b
      let s2 := optStep acc.1 b
      (s2, acc.2.1 + loss, acc.2.2 + accuracy y_pred b))
    (s, 0, 0)

/-- The evaluation phase of one `train_classifier` epoch: `model.eval()` and
`torch.no_grad()` — predictions only, no parameter update, accumulating
`test_loss_epoch_sum` and `test_acc_epoch_sum`. -/
def tcEvalPhase (s : σ) (batches : List β) : ℚ × ℚ :=
  batches.foldl
    (fun acc b =>
      let y_pred := model s false b
      (acc.1 + loss_func y_pred b, acc.2 + accuracy y_pred b))
    (0, 0)

/-- The four metric appends at the end of a `train_classifier` epoch, in
source order: `train_loss`, `test_loss`, `train_acc`, `test_acc`. -/
def tcEpochAppends (tl el ta ea : ℚ) : List (MetricName × ℚ) :=
  [(.trainLoss, tl), (.testLoss, el), (.trainAcc, ta), (.testAcc, ea)]

/-- One epoch of `train_classifier`: train phase, eval phase, then the four
appends `sum / len(dataloader)` in source order.  The first division whose
denominator is zero raises `ZeroDivisionError`.  Returns the updated state,
the updated log, and the append-event trace of this epoch. -/
def tcEpoch (train_dataloader test_dataloader : List β) (s : σ) (L : Logs) :
    Except TrainError (σ × Logs × List (MetricName × ℚ)) := do
  let ph := tcTrainPhase model loss_func accuracy optStep s train_dataloader
  let ev := tcEvalPhase model loss_func accuracy ph.1 test_dataloader
  let tl ← pydiv ph.2.1 train_dataloader.length
  let el ← pydiv ev.1 test_dataloader.length
  let ta ← pydiv ph.2.2 train_dataloader.length
  let ea ← pydiv ev.2 test_dataloader.length
  let evs := tcEpochAppends tl el ta ea
  .ok (ph.1, applyAppends L evs, evs)

/-- The epoch loop of `train_classifier` over the remaining epoch indices,
carrying state, log, printed-epoch trace and append-event trace.  A progress
line is printed when `(epoch + 1) % log_every == 0 or (epoch + 1) == max_epochs`. -/
def tcGo (train_dataloader test_dataloader : List β) (max_epochs log_every : ℕ) :
    List ℕ → σ → Logs → List ℕ → List (List (MetricName × ℚ)) →
    Except TrainError (σ × Logs × List ℕ × List (List (MetricName × ℚ)))
  | [], s, L, printed, evss => .ok (s, L, printed, evss)
  | e :: rest, s, L, printed, evss => do
      let step ← tcEpoch model loss_func accuracy optStep train_dataloader test_dataloader s L
      let printed2 :=
        if (e + 1) % log_every == 0 || (e + 1) == max_epochs then printed ++ [e] else printed
      tcGo train_dataloader test_dataloader max_epochs log_every
        rest step.1 step.2.1 printed2 (evss ++ [step.2.2])

/-- `train_classifier(...)`: `for epoch in range(max_epochs)` over `tcEpoch`.
(The `use_gpu` / `.to(device)` handling moves data between devices and is
identity here.)  Returns final state, final log, printed epochs, append traces. -/
def train_classifier (train_dataloader test_dataloader : List β)
    (max_epochs log_every : ℕ) (s : σ) (logs : Logs) :
    Except TrainError (σ × Logs × List ℕ × List (List (MetricName × ℚ))) :=
  tcGo model loss_func accuracy optStep train_dataloader test_dataloader
    max_epochs log_every (List.range max_epochs) s logs [] []

/-- `torch.Tensor.mean()` of a collected per-step metric array: `sum / length`.
For an empty array torch produces `NaN`; in this `ℚ` model the division by
zero yields `0` — no theorem below relies on the empty case of this model. -/
def torchMean (l : List ℚ) : ℚ := l.sum / l.length

/-- Training phase of one epoch of the inline `02_convnets.ipynb` loop:
per-step losses and accuracies are written into preallocated arrays
(`train_loss[idx] = loss.item()`, `train_acc[idx] = acc`), modelled by
collecting them in order. -/
def nbTrainPhase (s : σ) (batches : List β) : σ × List ℚ × List ℚ :=
  batches.foldl
    (fun acc b =>
      let y_hat := model acc.1 true b
      let loss := loss_func y_hat b
      let s2 := optStep acc.1 b
      (s2, acc.2.1 ++ [loss], acc.2.2 ++ [accuracy y_hat b]))
    (s, [], [])

/-- Evaluation phase of one epoch of the inline notebook loop. -/
def nbEvalPhase (s : σ) (batches : List β) : List ℚ × List ℚ :=
  batches.foldl
    (fun acc b =>
      let y_hat := model s false b
      (acc.1 ++ [loss_func y_hat b], acc.2 ++ [accuracy y_hat b]))
    ([], [])

/-- The four appends at the end of an inline-notebook-loop epoch, in source
order: `train_losses`, `train_acc`, `validation_losses`, `validation_acc`. -/
def nbEpochAppends (tl ta vl va : ℚ) : List (MetricName × ℚ) :=
  [(.trainLoss, tl), (.trainAcc, ta), (.testLoss, vl), (.testAcc, va)]

/-- One epoch of the inline notebook loop: train phase, eval phase, then the
four `.append(….mean())` calls in source order.  Never raises. -/
def nbEpoch (train_dataloader validation_dataloader : List β) (s : σ) (R : Logs) :
    σ × Logs × List (MetricName × ℚ) :=
  let ph := nbTrainPhase model loss_func accuracy optStep s train_dataloader
  let ev := nbEvalPhase model loss_func accuracy ph.1 validation_dataloader
  let evs := nbEpochAppends (torchMean ph.2.1) (torchMean ph.2.2)
    (torchMean ev.1) (torchMean ev.2)
  (ph.1, applyAppends R evs, evs)

/-- The epoch loop of the inline notebook cell.  A progress line is printed
when `epoch % log_every == 0 or (epoch+1) == max_epochs`. -/
def nbGo (train_dataloader validation_dataloader : List β) (max_epochs log_every : ℕ) :
    List ℕ → σ → Logs → List ℕ → List (List (MetricName × ℚ)) →
    σ × Logs × List ℕ × List (List (MetricName × ℚ))
  | [], s, R, printed, evss => (s, R, printed, evss)
  | e :: rest, s, R, printed, evss =>
      let step := nbEpoch model loss_func accuracy optStep
        train_dataloader validation_dataloader s R
      let printed2 :=
        if e % log_every == 0 || (e + 1) == max_epochs then printed ++ [e] else printed
      nbGo train_dataloader validation_dataloader max_epochs log_every
        rest step.1 step.2.1 printed2 (evss ++ [step.2.2])

/-- The inline training-loop cell of `02_convnets.ipynb`:
`for epoch in range(max_epochs)` over `nbEpoch`. -/
def nbTrainingLoop (train_dataloader validation_dataloader : List β)
    (max_epochs log_every : ℕ) (s : σ) (results : Logs) :
    σ × Logs × List ℕ × List (List (MetricName × ℚ)) :=
  nbGo model loss_func accuracy optStep train_dataloader validation_dataloader
    max_epochs log_every (List.range max_epochs) s results [] []

end TrainingLoops

/-! ### Concrete instances used as test inputs

Tiny concrete data sets and trivial collaborator instances, used to evaluate
the embedded operations at explicit inputs. -/

/-- A raw sample set of two all-zero samples. -/
def exRawZero : RawData := ⟨[[0], [0]], [7, 9]⟩

/-- The validation view the adapter builds from `exRawZero` with
`validation_size = 1/2`, `seed = 0` (see `exRawZero_init_validation`). -/
def exValViewZero : MNIST1D := ⟨false, exRawZero, 0, 0, [[0]], [9]⟩

/-- A raw sample set whose samples are all constantly `5`. -/
def exRawConst : RawData := ⟨[[5], [5]], [7, 9]⟩

/-- A trivial model instance: unit state, unit batches, unit predictions. -/
def exModel : Unit → Bool → Unit → Unit := fun _ _ _ => ()

/-- A trivial loss function instance, constantly `0`. -/
def exLoss : Unit → Unit → ℚ := fun _ _ => 0

/-- A trivial accuracy function instance, constantly `0`. -/
def exAcc : Unit → Unit → ℚ := fun _ _ => 0

/-- A trivial optimizer-step instance. -/
def exStep : Unit → Unit → Unit := fun _ _ => ()

/-- An initially empty metric log (`defaultdict(list)` fresh instance). -/
def exLogsEmpty : Logs := ⟨[], [], [], []⟩

/-! ### Facts about the split permutation -/

theorem cons_get_eraseIdx_perm {α : Type} (l : List α) (i : ℕ) (h : i < l.length) :
    l.Perm (l.get ⟨i, h⟩ :: l.eraseIdx i) := by
  induction l generalizing i with
  | nil => simp at h
  | cons x xs ih =>
    cases i with
    | zero => simp
    | succ j =>
      have hj : j < xs.length := Nat.lt_of_succ_lt_succ (by simpa using h)
      have hperm := ih j hj
      simp only [List.get_cons_succ, List.eraseIdx_cons_succ]
      exact (hperm.cons x).trans (List.Perm.swap _ _ _)

theorem drawAllGo_perm {α : Type} :
    ∀ (fuel : ℕ) (l : List α) (s : ℕ), l.length ≤ fuel → (drawAllGo fuel l s).Perm l := by
  intro fuel
  induction fuel with
  | zero =>
    intro l s hl
    have : l = [] := List.eq_nil_of_length_eq_zero (Nat.le_zero.mp hl)
    simp [this, drawAllGo]
  | succ fuel ih =>
    intro l s hl
    match l with
    | [] => simp [drawAllGo]
    | x :: xs =>
      rw [drawAllGo]
      have hpos : 0 < (x :: xs).length := by simp
      have hi : s % (x :: xs).length < (x :: xs).length := Nat.mod_lt _ hpos
      have hlen : ((x :: xs).eraseIdx (s % (x :: xs).length)).length ≤ fuel := by
        have := List.length_eraseIdx_add_one hi
        omega
      have htail := ih ((x :: xs).eraseIdx (s % (x :: xs).length)) (lcg s) hlen
      have hget : (x :: xs).getD (s % (x :: xs).length) x = (x :: xs).get ⟨s % (x :: xs).length, hi⟩ := by
        rw [List.getD_eq_getElem _ _ hi]
        simp
      rw [hget]
      exact (htail.cons _).trans (cons_get_eraseIdx_perm _ _ hi).symm

theorem splitPermutation_perm (N seed : ℕ) : (splitPermutation N seed).Perm (List.range N) :=
  drawAllGo_perm N (List.range N) (lcg seed) (by simp)

theorem splitPermutation_length (N seed : ℕ) : (splitPermutation N seed).length = N := by
  have := (splitPermutation_perm N seed).length_eq
  simpa using this

theorem splitPermutation_nodup (N seed : ℕ) : (splitPermutation N seed).Nodup :=
  (splitPermutation_perm N seed).nodup_iff.mpr (List.nodup_range N)

theorem mem_splitPermutation {N seed i : ℕ} (h : i ∈ splitPermutation N seed) : i < N := by
  have := (splitPermutation_perm N seed).mem_iff.mp h
  simpa using this

/-- The two partitions are disjoint. -/
theorem testIndices_disjoint_trainIndices (N : ℕ) (p : ℚ) (seed : ℕ) :
    List.Disjoint (testIndices N p seed) (trainIndices N p seed) :=
  List.disjoint_take_drop (splitPermutation_nodup N seed) le_rfl

/-- Together the two partitions are exactly the indices `0, …, N-1`. -/
theorem testIndices_append_trainIndices_perm (N : ℕ) (p : ℚ) (seed : ℕ) :
    (testIndices N p seed ++ trainIndices N p seed).Perm (List.range N) := by
  rw [testIndices, trainIndices, List.take_append_drop]
  exact splitPermutation_perm N seed

theorem length_testIndices (N : ℕ) (p : ℚ) (seed : ℕ) :
    (testIndices N p seed).length = min (nTest N p) N := by
  simp [testIndices, splitPermutation_length]

theorem length_trainIndices (N : ℕ) (p : ℚ) (seed : ℕ) :
    (trainIndices N p seed).length = N - nTest N p := by
  simp [trainIndices, splitPermutation_length]

theorem mem_trainIndices_lt {N : ℕ} {p : ℚ} {seed i : ℕ} (h : i ∈ trainIndices N p seed) :
    i < N :=
  mem_splitPermutation (List.mem_of_mem_drop h)

theorem mem_testIndices_lt {N : ℕ} {p : ℚ} {seed i : ℕ} (h : i ∈ testIndices N p seed) :
    i < N :=
  mem_splitPermutation (List.mem_of_mem_take h)

theorem mem_trainIndices_not_mem_testIndices {N : ℕ} {p : ℚ} {seed i : ℕ}
    (h : i ∈ trainIndices N p seed) : i ∉ testIndices N p seed :=
  fun hmem => (testIndices_disjoint_trainIndices N p seed) hmem h

/-! ### Supporting lemmas about the adapter -/

theorem foldl_min_const {c : ℚ} :
    ∀ (r : List ℚ) (a : ℚ), (∀ v ∈ r, v = c) → a = c → r.foldl min a = c := by
  intro r
  induction r with
  | nil => intro a _ ha; simpa using ha
  | cons v vs ih =>
    intro a hr ha
    have hv : v = c := hr v (by simp)
    have : min a v = c := by rw [ha, hv, min_self]
    exact ih (min a v) (fun w hw => hr w (by simp [hw])) this

theorem foldl_max_const {c : ℚ} :
    ∀ (r : List ℚ) (a : ℚ), (∀ v ∈ r, v = c) → a = c → r.foldl max a = c := by
  intro r
  induction r with
  | nil => intro a _ ha; simpa using ha
  | cons v vs ih =>
    intro a hr ha
    have hv : v = c := hr v (by simp)
    have : max a v = c := by rw [ha, hv, max_self]
    exact ih (max a v) (fun w hw => hr w (by simp [hw])) this

theorem npMin_const {l : List ℚ} {c : ℚ} (hne : l ≠ []) (hc : ∀ v ∈ l, v = c) :
    npMin l = c := by
  match l with
  | [] => exact absurd rfl hne
  | a :: r =>
    rw [npMin]
    exact foldl_min_const r a (fun v hv => hc v (by simp [hv])) (hc a (by simp))

theorem npMax_const {l : List ℚ} {c : ℚ} (hne : l ≠ []) (hc : ∀ v ∈ l, v = c) :
    npMax l = c := by
  match l with
  | [] => exact absurd rfl hne
  | a :: r =>
    rw [npMax]
    exact foldl_max_const r a (fun v hv => hc v (by simp [hv])) (hc a (by simp))

/-- Every row selected into `X_train` is a row of the raw inputs. -/
theorem X_train_of_mem {x : List (List ℚ)} {p : ℚ} {seed : ℕ} {row : List ℚ}
    (h : row ∈ X_train_of x p seed) : row ∈ x := by
  rw [X_train_of] at h
  obtain ⟨i, hi, hrow⟩ := List.mem_map.mp h
  have hlt : i < x.length := mem_trainIndices_lt hi
  rw [List.getD_eq_getElem _ _ hlt] at hrow
  exact hrow ▸ List.getElem_mem hlt

/-- Every row selected into `X_validation` is a row of the raw inputs. -/
theorem X_validation_of_mem {x : List (List ℚ)} {p : ℚ} {seed : ℕ} {row : List ℚ}
    (h : row ∈ X_validation_of x p seed) : row ∈ x := by
  rw [X_validation_of] at h
  obtain ⟨i, hi, hrow⟩ := List.mem_map.mp h
  have hlt : i < x.length := mem_testIndices_lt hi
  rw [List.getD_eq_getElem _ _ hlt] at hrow
  exact hrow ▸ List.getElem_mem hlt

/-- `X_train` is untouched by changes to rows outside the train partition. -/
theorem X_train_of_congr {x x2 : List (List ℚ)} {p : ℚ} {seed : ℕ}
    (hlen : x2.length = x.length)
    (hagree : ∀ i, i ∉ testIndices x.length p seed → x2.getD i [] = x.getD i []) :
    X_train_of x2 p seed = X_train_of x p seed := by
  rw [X_train_of, X_train_of, hlen]
  exact List.map_congr_left
    (fun i hi => hagree i (mem_trainIndices_not_mem_testIndices hi))

/-- A successfully constructed view: shape of its fields. -/
theorem mnist1dInit_ok {data : RawData} {train : Bool} {p : ℚ} {seed : ℕ} {d : MNIST1D}
    (hok : mnist1dInit data train p seed = .ok d) :
    d.X_loc = X_loc_of data.x p seed
    ∧ d.X_scale = X_scale_of data.x p seed
    ∧ d.X = (if train then X_train_of data.x p seed else X_validation_of data.x p seed).map
        (fun row => row.map
          (fun v => (v - X_loc_of data.x p seed) / X_scale_of data.x p seed))
    ∧ d.y = (if train then y_train_of data.y data.x.length p seed
        else y_validation_of data.y data.x.length p seed) := by
  rw [mnist1dInit] at hok
  by_cases hguard : nTest data.x.length p = 0 ∨ data.x.length ≤ nTest data.x.length p
  · rw [if_pos hguard] at hok
    exact absurd hok (by simp)
  · rw [if_neg hguard] at hok
    cases train with
    | true =>
      simp only [if_true] at hok ⊢
      cases hok
      exact ⟨rfl, rfl, rfl, rfl⟩
    | false =>
      simp only [if_false, Bool.false_eq_true] at hok ⊢
      cases hok
      exact ⟨rfl, rfl, rfl, rfl⟩

/-- A successfully constructed view has as many labels as samples. -/
theorem mnist1dInit_ok_len {data : RawData} {train : Bool} {p : ℚ} {seed : ℕ} {d : MNIST1D}
    (hok : mnist1dInit data train p seed = .ok d) :
    d.X.length = d.y.length := by
  obtain ⟨-, -, hX, hy⟩ := mnist1dInit_ok hok
  cases train with
  | true =>
    simp only [if_true] at hX hy
    simp [hX, hy, X_train_of, y_train_of]
  | false =>
    simp only [if_false, Bool.false_eq_true] at hX hy
    simp [hX, hy, X_validation_of, y_validation_of]

/-- A successfully constructed view preserves the raw row length. -/
theorem mnist1dInit_ok_rows {data : RawData} {train : Bool} {p : ℚ} {seed : ℕ}
    {d : MNIST1D} {L : ℕ} (hrows : ∀ row ∈ data.x, row.length = L)
    (hok : mnist1dInit data train p seed = .ok d) :
    ∀ row ∈ d.X, row.length = L := by
  obtain ⟨-, -, hX, -⟩ := mnist1dInit_ok hok
  intro row hrow
  rw [hX] at hrow
  obtain ⟨row0, hrow0, hmap⟩ := List.mem_map.mp hrow
  have hlen0 : row0.length = L := by
    cases train with
    | true =>
      simp only [if_true] at hrow0
      exact hrows row0 (X_train_of_mem hrow0)
    | false =>
      simp only [if_false, Bool.false_eq_true] at hrow0
      exact hrows row0 (X_validation_of_mem hrow0)
  rw [← hmap]
  simpa using hlen0

/-- Slicing `l[i:i+1]` at an in-range non-negative index keeps exactly one row. -/
theorem pySlice_singleton {α : Type} (l : List α) (i : ℤ) (h0 : 0 ≤ i)
    (hN : i < l.length) :
    pySlice l i (i + 1) = [l.get ⟨i.toNat, by omega⟩] := by
  rw [pySlice]
  have ha : pySliceIdx l.length i = i.toNat := by
    rw [pySliceIdx, if_neg (by omega)]
    omega
  have hb : pySliceIdx l.length (i + 1) = i.toNat + 1 := by
    rw [pySliceIdx, if_neg (by omega)]
    omega
  simp only [ha, hb, Nat.add_sub_cancel_left]
  have hdrop := List.drop_eq_getElem_cons (l := l) (n := i.toNat) (by omega)
  rw [hdrop]
  rfl

/-! ### Evaluation of the adapter on the concrete instances -/

theorem nTest_two_half : nTest 2 (1/2) = 1 := by
  rw [nTest]
  norm_num

theorem nTest_4000_tenth : nTest 4000 (1/10) = 400 := by
  rw [nTest]
  norm_num
  decide

theorem splitPermutation_two : splitPermutation 2 0 = [1, 0] := by decide

theorem testIndices_two : testIndices 2 (1/2) 0 = [1] := by
  rw [testIndices, nTest_two_half]
  decide

theorem trainIndices_two : trainIndices 2 (1/2) 0 = [0] := by
  rw [trainIndices, nTest_two_half]
  decide

/-- Full evaluation of `MNIST1D.__init__` on `exRawZero`, validation view. -/
theorem exRawZero_init_validation :
    mnist1dInit exRawZero false (1/2) 0 = .ok exValViewZero := by
  rw [exRawZero, exValViewZero, mnist1dInit]
  simp only [nTest_two_half]
  norm_num [X_loc_of, X_scale_of, X_train_of, X_validation_of,
    y_train_of, y_validation_of, trainIndices, testIndices, npMin, npMax,
    nTest_two_half, splitPermutation_two, exRawZero]

/-- Full evaluation of `MNIST1D.__init__` on the constant data set `exRawConst`:
construction succeeds, `X_scale = 0`, and the zero-divided normalized values
come out as `0` (in float semantics: `0.0 / 0.0 = NaN`). -/
theorem exRawConst_init :
    mnist1dInit exRawConst true (1/2) 0 = .ok ⟨true, exRawConst, 5, 0, [[0]], [7]⟩ := by
  rw [exRawConst, mnist1dInit]
  simp only [nTest_two_half]
  norm_num [X_loc_of, X_scale_of, X_train_of, X_validation_of,
    y_train_of, y_validation_of, trainIndices, testIndices, npMin, npMax,
    nTest_two_half, splitPermutation_two, exRawConst]

/-- Characterization of `__getitem__` failure: the only raising subexpression
is the label indexing `self.y[index]`, which raises exactly for
`index < -len` or `index ≥ len`; the input slice never raises. -/
theorem mnist1dGetitem_error_iff (d : MNIST1D) (i : ℤ) :
    (mnist1dGetitem d i = .error .indexOutOfRange
      ↔ (i < -(d.y.length : ℤ) ∨ (d.y.length : ℤ) ≤ i))
    ∧ ((mnist1dGetitem d i).isOk ↔ (-(d.y.length : ℤ) ≤ i ∧ i < (d.y.length : ℤ))) := by
  rw [mnist1dGetitem, pyGetElem]
  by_cases h1 : 0 ≤ i ∧ i < (d.y.length : ℤ)
  · rw [dif_pos h1]
    constructor
    · constructor
      · intro hcontra
        exact absurd hcontra (by simp [Bind.bind, Except.bind])
      · intro hrange
        omega
    · constructor
      · intro _
        omega
      · intro _
        simp [Bind.bind, Except.bind, Except.isOk, Except.toBool]
  · rw [dif_neg h1]
    by_cases h2 : -(d.y.length : ℤ) ≤ i ∧ i < 0
    · rw [dif_pos h2]
      constructor
      · constructor
        · intro hcontra
          exact absurd hcontra (by simp [Bind.bind, Except.bind])
        · intro hrange
          omega
      · constructor
        · intro _
          omega
        · intro _
          simp [Bind.bind, Except.bind, Except.isOk, Except.toBool]
    · rw [dif_neg h2]
      constructor
      · constructor
        · intro _
          omega
        · intro _
          simp [Bind.bind, Except.bind]
      · constructor
        · intro hok
          exact absurd hok (by simp [Bind.bind, Except.bind, Except.isOk, Except.toBool])
        · intro hrange
          omega

/-- `__getitem__` at an in-range non-negative index: the slice keeps exactly
the one selected (already normalized) row, with a leading channel axis. -/
theorem mnist1dGetitem_in_range (d : MNIST1D) (hlen : d.X.length = d.y.length)
    (i : ℤ) (h0 : 0 ≤ i) (hN : i < (d.X.length : ℤ)) :
    mnist1dGetitem d i =
      .ok (⟨.float32, [d.X.get ⟨i.toNat, by omega⟩]⟩,
        ⟨.int64, d.y.get ⟨i.toNat, by omega⟩⟩) := by
  rw [mnist1dGetitem, pyGetElem, dif_pos (show 0 ≤ i ∧ i < (d.y.length : ℤ) by omega)]
  rw [pySlice_singleton d.X i h0 hN]
  rfl

/-! ### The claims -/

/-- C2 counterexample: on a raw sample set whose samples are constantly `5`
(with `validation_size = 1/2`, `seed = 0`, so the training partition is the
constant sample `[5]` and `scale = max - min = 0`), `MNIST1D.__init__` does
not fail with `DegenerateData`: it returns the constructed view, whose
`X_scale` is `0` and whose normalized values are produced by dividing by zero. -/
theorem degenerate_data_counterexample :
    mnist1dInit exRawConst true (1/2) 0 = .ok ⟨true, exRawConst, 5, 0, [[0]], [7]⟩
    ∧ mnist1dInit exRawConst true (1/2) 0 ≠ .error .degenerateData
    ∧ (⟨true, exRawConst, 5, 0, [[0]], [7]⟩ : MNIST1D).X_scale = 0 := by
  refine ⟨exRawConst_init, ?_, rfl⟩
  rw [exRawConst_init]
  simp

/-- C2 (amended): when the training partition is constant, computing the
normalization statistics does **not** fail: construction succeeds whenever the
split itself is valid, and the constructed view has `X_scale = 0`, so the
normalized values are obtained by dividing by zero (`NaN` in the float
semantics of the source; `0` in this `ℚ` model) — there is no `DegenerateData`
error path in the code. -/
theorem degenerate_data_no_failure (data : RawData) (train : Bool) (p : ℚ)
    (seed : ℕ) (c : ℚ)
    (hguard : ¬(nTest data.x.length p = 0 ∨ data.x.length ≤ nTest data.x.length p))
    (hc : ∀ row ∈ data.x, ∀ v ∈ row, v = c)
    (hne : (X_train_of data.x p seed).flatten ≠ []) :
    ∃ d, mnist1dInit data train p seed = .ok d ∧ d.X_scale = 0 := by
  have hflat : ∀ v ∈ (X_train_of data.x p seed).flatten, v = c := by
    intro v hv
    obtain ⟨row, hrow, hvrow⟩ := List.mem_flatten.mp hv
    exact hc row (X_train_of_mem hrow) v hvrow
  have hscale : X_scale_of data.x p seed = 0 := by
    rw [X_scale_of, npMin_const hne hflat, npMax_const hne hflat, sub_self]
  simp only [mnist1dInit]
  rw [if_neg hguard]
  cases train with
  | true =>
    rw [if_pos rfl]
    exact ⟨_, rfl, hscale⟩
  | false =>
    rw [if_neg (by simp)]
    exact ⟨_, rfl, hscale⟩

/-- Witness for C2 (amended) at the concrete constant data set `exRawConst`. -/
theorem degenerate_data_no_failure_witness :
    (¬(nTest exRawConst.x.length (1/2) = 0
        ∨ exRawConst.x.length ≤ nTest exRawConst.x.length (1/2)))
    ∧ (∀ row ∈ exRawConst.x, ∀ v ∈ row, v = 5)
    ∧ (X_train_of exRawConst.x (1/2) 0).flatten ≠ []
    ∧ ∃ d, mnist1dInit exRawConst true (1/2) 0 = .ok d ∧ d.X_scale = 0 := by
  have hguard : ¬(nTest exRawConst.x.length (1/2) = 0
      ∨ exRawConst.x.length ≤ nTest exRawConst.x.length (1/2)) := by
    rw [show exRawConst.x.length = 2 from rfl, nTest_two_half]
    norm_num
  have hc : ∀ row ∈ exRawConst.x, ∀ v ∈ row, v = 5 := by
    intro row hrow v hv
    have h5 : row = [5] := by simpa [exRawConst] using hrow
    rw [h5] at hv
    simpa using hv
  have hne : (X_train_of exRawConst.x (1/2) 0).flatten ≠ [] := by
    rw [X_train_of, show exRawConst.x.length = 2 from rfl, trainIndices_two]
    simp [exRawConst]
  exact ⟨hguard, hc, hne, degenerate_data_no_failure exRawConst true (1/2) 0 5 hguard hc hne⟩

/-- C3 counterexample: on the validation view the adapter builds from
`exRawZero`, the out-of-range index `-1` does **not** fail with
`IndexOutOfRange`: `__getitem__(-1)` returns a pair — the label slot holds the
wrapped-around last label `9`, and the input slot is the empty slice `X[-1:0]`. -/
theorem getitem_negative_index_counterexample :
    mnist1dInit exRawZero false (1/2) 0 = .ok exValViewZero
    ∧ mnist1dGetitem exValViewZero (-1) = .ok (⟨.float32, []⟩, ⟨.int64, 9⟩)
    ∧ mnist1dGetitem exValViewZero (-1) ≠ .error .indexOutOfRange :=
  ⟨exRawZero_init_validation, by decide, by decide⟩

/-- C3 (amended): `__getitem__(index)` fails (necessarily with
`IndexOutOfRange`) **iff** `index < -length()` or `index ≥ length()`; for every
index with `-length() ≤ index < length()` — in particular every negative index
down to `-length()` — it returns an `(input, label)` pair, with Python
wrap-around semantics on the label (and an input slice that is empty exactly
for `index = -1`). -/
theorem getitem_failure_iff (d : MNIST1D) (hlen : d.X.length = d.y.length) (i : ℤ) :
    (mnist1dGetitem d i = .error .indexOutOfRange
      ↔ (i < -(d.X.length : ℤ) ∨ (d.X.length : ℤ) ≤ i))
    ∧ ((mnist1dGetitem d i).isOk ↔ (-(d.X.length : ℤ) ≤ i ∧ i < (d.X.length : ℤ))) := by
  rw [hlen]
  exact mnist1dGetitem_error_iff d i

/-- Witness for C3 (amended) on the concrete validation view, at index `-1`. -/
theorem getitem_failure_iff_witness :
    exValViewZero.X.length = exValViewZero.y.length
    ∧ ((mnist1dGetitem exValViewZero (-1) = .error .indexOutOfRange
        ↔ ((-1 : ℤ) < -(exValViewZero.X.length : ℤ)
            ∨ (exValViewZero.X.length : ℤ) ≤ -1))
      ∧ ((mnist1dGetitem exValViewZero (-1)).isOk
        ↔ (-(exValViewZero.X.length : ℤ) ≤ -1
            ∧ (-1 : ℤ) < (exValViewZero.X.length : ℤ)))) :=
  ⟨rfl, getitem_failure_iff exValViewZero rfl (-1)⟩

/-- C1: leakage-freedom of normalization.  If the raw inputs are perturbed
only at indices outside the train partition (in particular: only at
validation-partition indices), the normalization statistics `(loc, scale)` are
unchanged — they depend only on the training-partition inputs.  Moreover the
validation view built from the perturbed inputs normalizes its samples with
exactly those training-derived statistics (it never recomputes them from
validation data). -/
theorem normalization_leakage_free (x x2 : List (List ℚ)) (y2 : List ℤ) (p : ℚ)
    (seed : ℕ) (hlen : x2.length = x.length)
    (hagree : ∀ i, i ∉ testIndices x.length p seed → x2.getD i [] = x.getD i []) :
    X_loc_of x2 p seed = X_loc_of x p seed
    ∧ X_scale_of x2 p seed = X_scale_of x p seed
    ∧ ∀ d, mnist1dInit ⟨x2, y2⟩ false p seed = .ok d →
        d.X_loc = X_loc_of x p seed ∧ d.X_scale = X_scale_of x p seed
        ∧ d.X = (X_validation_of x2 p seed).map (fun row => row.map
            (fun v => (v - X_loc_of x p seed) / X_scale_of x p seed)) := by
  have hxt := X_train_of_congr hlen hagree
  have hloc : X_loc_of x2 p seed = X_loc_of x p seed := by
    rw [X_loc_of, X_loc_of, hxt]
  have hscale : X_scale_of x2 p seed = X_scale_of x p seed := by
    rw [X_scale_of, X_scale_of, hxt]
  refine ⟨hloc, hscale, ?_⟩
  intro d hok
  obtain ⟨h1, h2, h3, -⟩ := mnist1dInit_ok hok
  dsimp only at h1 h2 h3
  rw [if_neg (by simp)] at h3
  refine ⟨by rw [h1, hloc], by rw [h2, hscale], ?_⟩
  rw [h3, hloc, hscale]

/-- Witness for C1: perturbing the (sole) validation sample of a concrete raw
set from `[0]` to `[9]` leaves `(loc, scale)` unchanged. -/
theorem normalization_leakage_free_witness :
    (List.length [[(0 : ℚ)], [9]] = List.length [[(0 : ℚ)], [0]])
    ∧ (∀ i, i ∉ testIndices (List.length [[(0 : ℚ)], [0]]) (1/2) 0 →
        ([[(0 : ℚ)], [9]]).getD i [] = ([[(0 : ℚ)], [0]]).getD i [])
    ∧ (X_loc_of [[(0 : ℚ)], [9]] (1/2) 0 = X_loc_of [[(0 : ℚ)], [0]] (1/2) 0
      ∧ X_scale_of [[(0 : ℚ)], [9]] (1/2) 0 = X_scale_of [[(0 : ℚ)], [0]] (1/2) 0
      ∧ ∀ d, mnist1dInit ⟨[[(0 : ℚ)], [9]], [7, 9]⟩ false (1/2) 0 = .ok d →
          d.X_loc = X_loc_of [[(0 : ℚ)], [0]] (1/2) 0
          ∧ d.X_scale = X_scale_of [[(0 : ℚ)], [0]] (1/2) 0
          ∧ d.X = (X_validation_of [[(0 : ℚ)], [9]] (1/2) 0).map (fun row => row.map
              (fun v => (v - X_loc_of [[(0 : ℚ)], [0]] (1/2) 0)
                / X_scale_of [[(0 : ℚ)], [0]] (1/2) 0))) := by
  have hagree : ∀ i, i ∉ testIndices (List.length [[(0 : ℚ)], [0]]) (1/2) 0 →
      ([[(0 : ℚ)], [9]]).getD i [] = ([[(0 : ℚ)], [0]]).getD i [] := by
    intro i hi
    rw [show List.length [[(0 : ℚ)], [0]] = 2 from rfl, testIndices_two] at hi
    match i with
    | 0 => rfl
    | 1 => exact absurd (by simp) hi
    | n + 2 => rfl
  exact ⟨rfl, hagree,
    normalization_leakage_free [[(0 : ℚ)], [0]] [[(0 : ℚ)], [9]] [7, 9] (1/2) 0 rfl hagree⟩

/-- C4: split determinism.  The embedded split (and the whole constructor) is
a pure function of `(raw, split_fraction, seed)` — the code passes the seed
explicitly as `random_state=seed` and consults no other randomness source —
so calling it twice with the same valid arguments yields identical
`train_indices`, identical `validation_indices`, and an identical view. -/
theorem split_build_deterministic (data : RawData) (train : Bool) (p : ℚ)
    (seed : ℕ) (hp0 : 0 < p) (hp1 : p < 1) (hne : data.x ≠ []) :
    trainIndices data.x.length p seed = trainIndices data.x.length p seed
    ∧ testIndices data.x.length p seed = testIndices data.x.length p seed
    ∧ mnist1dInit data train p seed = mnist1dInit data train p seed :=
  ⟨rfl, rfl, rfl⟩

/-- Witness for C4 at a concrete raw set. -/
theorem split_build_deterministic_witness :
    (0 < (1/2 : ℚ)) ∧ ((1/2 : ℚ) < 1) ∧ exRawZero.x ≠ []
    ∧ (trainIndices exRawZero.x.length (1/2) 0 = trainIndices exRawZero.x.length (1/2) 0
      ∧ testIndices exRawZero.x.length (1/2) 0 = testIndices exRawZero.x.length (1/2) 0
      ∧ mnist1dInit exRawZero true (1/2) 0 = mnist1dInit exRawZero true (1/2) 0) :=
  ⟨by norm_num, by norm_num, by simp [exRawZero],
    split_build_deterministic exRawZero true (1/2) 0 (by norm_num) (by norm_num)
      (by simp [exRawZero])⟩

/-- C5: partition correctness.  For every valid split the train and validation
index lists are disjoint and together are a permutation of all raw indices;
the validation size `⌈p·N⌉` is within one sample of `p·N`; and in the concrete
scenario `N = 4000`, `split_fraction = 1/10`, `seed = 42` the training
partition has exactly 3600 samples and the validation partition exactly 400. -/
theorem split_partition_correct (N : ℕ) (p : ℚ) (seed : ℕ)
    (hp0 : 0 < p) (hp1 : p < 1) (hvalid : nTest N p < N) :
    List.Disjoint (trainIndices N p seed) (testIndices N p seed)
    ∧ (testIndices N p seed ++ trainIndices N p seed).Perm (List.range N)
    ∧ |((testIndices N p seed).length : ℚ) - p * N| ≤ 1
    ∧ (trainIndices 4000 (1/10) 42).length = 3600
    ∧ (testIndices 4000 (1/10) 42).length = 400 := by
  refine ⟨(testIndices_disjoint_trainIndices N p seed).symm,
    testIndices_append_trainIndices_perm N p seed, ?_, ?_, ?_⟩
  · rw [length_testIndices, Nat.min_eq_left hvalid.le]
    have hnonneg : (0 : ℚ) ≤ p * N := by positivity
    have hceil0 : 0 ≤ Int.ceil (p * (N : ℚ)) := Int.ceil_nonneg hnonneg
    have hcast : ((nTest N p : ℕ) : ℚ) = ((Int.ceil (p * (N : ℚ)) : ℤ) : ℚ) := by
      rw [nTest]
      exact_mod_cast congrArg (fun z => ((z : ℤ) : ℚ)) (Int.toNat_of_nonneg hceil0)
    have h1 : (p * N : ℚ) ≤ ((Int.ceil (p * (N : ℚ)) : ℤ) : ℚ) := Int.le_ceil _
    have h2 : ((Int.ceil (p * (N : ℚ)) : ℤ) : ℚ) < p * N + 1 := Int.ceil_lt_add_one _
    rw [abs_le]
    constructor <;> [linarith [hcast, h1]; linarith [hcast, h2]]
  · rw [length_trainIndices, nTest_4000_tenth]
  · rw [length_testIndices, nTest_4000_tenth]
    decide

/-- Witness for C5 at the concrete scenario `N = 4000`, `p = 1/10`, `seed = 42`. -/
theorem split_partition_correct_witness :
    (0 < (1/10 : ℚ)) ∧ ((1/10 : ℚ) < 1) ∧ nTest 4000 (1/10) < 4000
    ∧ (List.Disjoint (trainIndices 4000 (1/10) 42) (testIndices 4000 (1/10) 42)
      ∧ (testIndices 4000 (1/10) 42 ++ trainIndices 4000 (1/10) 42).Perm (List.range 4000)
      ∧ |((testIndices 4000 (1/10) 42).length : ℚ) - (1/10) * 4000| ≤ 1
      ∧ (trainIndices 4000 (1/10) 42).length = 3600
      ∧ (testIndices 4000 (1/10) 42).length = 400) :=
  ⟨by norm_num, by norm_num, by rw [nTest_4000_tenth]; norm_num,
    split_partition_correct 4000 (1/10) 42 (by norm_num) (by norm_num)
      (by rw [nTest_4000_tenth]; norm_num)⟩

/-- C10: for every in-range index `i`, `__getitem__(i)` returns the normalized
input with a prepended channel axis — a float32 tensor of shape
`(1, input_length)`, not `(input_length,)` — and the label as an int64 tensor;
consequently a batch collated from any list of in-range indices consists of
`(1, input_length)`-shaped inputs, i.e. stacks to shape
`(batch, 1, input_length)`. -/
theorem getitem_channel_shape (data : RawData) (train : Bool) (p : ℚ) (seed : ℕ)
    (L : ℕ) (d : MNIST1D)
    (hrows : ∀ row ∈ data.x, row.length = L)
    (hok : mnist1dInit data train p seed = .ok d)
    (i : ℤ) (hi0 : 0 ≤ i) (hiN : i < (d.X.length : ℤ)) :
    (∃ t yv, mnist1dGetitem d i = .ok (t, yv)
      ∧ t.dtype = .float32 ∧ t.rows.length = 1 ∧ (∀ r ∈ t.rows, r.length = L)
      ∧ yv.dtype = .int64)
    ∧ ∀ idxs : List ℤ, (∀ j ∈ idxs, 0 ≤ j ∧ j < (d.X.length : ℤ)) →
        ∃ items, idxs.mapM (mnist1dGetitem d) = .ok items
          ∧ items.length = idxs.length
          ∧ ∀ it ∈ items, it.1.dtype = .float32 ∧ it.1.rows.length = 1
              ∧ (∀ r ∈ it.1.rows, r.length = L) ∧ it.2.dtype = .int64 := by
  have hlen := mnist1dInit_ok_len hok
  have hR := mnist1dInit_ok_rows hrows hok
  have hitem : ∀ j : ℤ, 0 ≤ j → j < (d.X.length : ℤ) →
      ∃ t yv, mnist1dGetitem d j = .ok (t, yv)
        ∧ t.dtype = .float32 ∧ t.rows.length = 1 ∧ (∀ r ∈ t.rows, r.length = L)
        ∧ yv.dtype = .int64 := by
    intro j hj0 hjN
    refine ⟨_, _, mnist1dGetitem_in_range d hlen j hj0 hjN, rfl, rfl, ?_, rfl⟩
    intro r hr
    have : r = d.X.get ⟨j.toNat, by omega⟩ := by simpa using hr
    rw [this]
    exact hR _ (d.X.get_mem _ _)
  refine ⟨hitem i hi0 hiN, ?_⟩
  intro idxs hidxs
  induction idxs with
  | nil => exact ⟨[], rfl, rfl, by simp⟩
  | cons j rest ih =>
    obtain ⟨t, yv, hj, ht, h1, hL2, hy⟩ :=
      hitem j (hidxs j (by simp)).1 (hidxs j (by simp)).2
    obtain ⟨items, hrest, hlen2, hall⟩ := ih (fun k hk => hidxs k (by simp [hk]))
    refine ⟨(t, yv) :: items, ?_, by simp [hlen2], ?_⟩
    · rw [List.mapM_cons, hj, hrest]
      rfl
    · intro it hit
      rcases List.mem_cons.mp hit with hhd | htl
      · rw [hhd]
        exact ⟨ht, h1, hL2, hy⟩
      · exact hall it htl

/-- Witness for C10 on the concrete validation view (input length 1), index 0. -/
theorem getitem_channel_shape_witness :
    (∀ row ∈ exRawZero.x, row.length = 1)
    ∧ mnist1dInit exRawZero false (1/2) 0 = .ok exValViewZero
    ∧ (0 : ℤ) ≤ 0 ∧ (0 : ℤ) < (exValViewZero.X.length : ℤ)
    ∧ ((∃ t yv, mnist1dGetitem exValViewZero 0 = .ok (t, yv)
        ∧ t.dtype = .float32 ∧ t.rows.length = 1 ∧ (∀ r ∈ t.rows, r.length = 1)
        ∧ yv.dtype = .int64)
      ∧ ∀ idxs : List ℤ, (∀ j ∈ idxs, 0 ≤ j ∧ j < (exValViewZero.X.length : ℤ)) →
          ∃ items, idxs.mapM (mnist1dGetitem exValViewZero) = .ok items
            ∧ items.length = idxs.length
            ∧ ∀ it ∈ items, it.1.dtype = .float32 ∧ it.1.rows.length = 1
                ∧ (∀ r ∈ it.1.rows, r.length = 1) ∧ it.2.dtype = .int64) := by
  have hrows : ∀ row ∈ exRawZero.x, row.length = 1 := by
    intro row hrow
    have : row = [0] := by simpa [exRawZero] using hrow
    rw [this]
    rfl
  exact ⟨hrows, exRawZero_init_validation, le_refl 0, by decide,
    getitem_channel_shape exRawZero false (1/2) 0 1 exValViewZero hrows
      exRawZero_init_validation 0 (le_refl 0) (by decide)⟩

/-! ### Facts about the training loops -/

section TrainingLoopFacts

variable {σ β γ : Type}
variable (model : σ → Bool → β → γ)
variable (loss_func : γ → β → ℚ)
variable (accuracy : γ → β → ℚ)
variable (optStep : σ → β → σ)

/-- The four appends of a `train_classifier` epoch, applied to a log: each
metric sequence receives exactly one value, at its end. -/
theorem applyAppends_tcEpochAppends (L : Logs) (a b c d : ℚ) :
    applyAppends L (tcEpochAppends a b c d) =
      ⟨L.train_loss ++ [a], L.test_loss ++ [b], L.train_acc ++ [c], L.test_acc ++ [d]⟩ :=
  rfl

/-- The four appends of an inline-notebook-loop epoch, applied to a log: each
metric sequence receives exactly one value, at its end (the second appended
value is the train accuracy, the third the validation loss). -/
theorem applyAppends_nbEpochAppends (R : Logs) (a b c d : ℚ) :
    applyAppends R (nbEpochAppends a b c d) =
      ⟨R.train_loss ++ [a], R.test_loss ++ [c], R.train_acc ++ [b], R.test_acc ++ [d]⟩ :=
  rfl

/-- With non-empty dataloaders a `train_classifier` epoch succeeds, appending
its four mean metrics to the log. -/
theorem tcEpoch_ok (tb eb : List β) (htb : tb ≠ []) (heb : eb ≠ []) (s : σ) (L : Logs) :
    ∃ s2 tl el ta ea,
      tcEpoch model loss_func accuracy optStep tb eb s L =
        .ok (s2, applyAppends L (tcEpochAppends tl el ta ea), tcEpochAppends tl el ta ea) := by
  have h1 : tb.length ≠ 0 := fun h => htb (List.length_eq_zero.mp h)
  have h2 : eb.length ≠ 0 := fun h => heb (List.length_eq_zero.mp h)
  refine ⟨(tcTrainPhase model loss_func accuracy optStep s tb).1,
    (tcTrainPhase model loss_func accuracy optStep s tb).2.1 / tb.length,
    (tcEvalPhase model loss_func accuracy
      (tcTrainPhase model loss_func accuracy optStep s tb).1 eb).1 / eb.length,
    (tcTrainPhase model loss_func accuracy optStep s tb).2.2 / tb.length,
    (tcEvalPhase model loss_func accuracy
      (tcTrainPhase model loss_func accuracy optStep s tb).1 eb).2 / eb.length, ?_⟩
  rw [tcEpoch]
  simp [pydiv, h1, h2, Bind.bind, Except.bind]

/-- With an empty train or eval dataloader a `train_classifier` epoch fails
with `ZeroDivisionError` at the first zero-denominator mean. -/
theorem tcEpoch_empty (tb eb : List β) (h : tb = [] ∨ eb = []) (s : σ) (L : Logs) :
    tcEpoch model loss_func accuracy optStep tb eb s L = .error .zeroDivisionError := by
  rcases h with h | h
  · subst h
    rw [tcEpoch]
    simp [pydiv, Bind.bind, Except.bind]
  · subst h
    by_cases htb : tb.length = 0
    · rw [tcEpoch]
      simp [pydiv, htb, Bind.bind, Except.bind]
    · rw [tcEpoch]
      simp [pydiv, htb, Bind.bind, Except.bind]

/-- The inline notebook epoch, destructured: it returns the post-train-phase
state, the log extended by its four append events, and those events, whose
keys are (in source order) train loss, train accuracy, validation loss,
validation accuracy. -/
theorem nbEpoch_spec (tb eb : List β) (s : σ) (R : Logs) :
    ∃ s2 evs,
      nbEpoch model loss_func accuracy optStep tb eb s R = (s2, applyAppends R evs, evs)
      ∧ evs.map Prod.fst =
        [MetricName.trainLoss, MetricName.trainAcc, MetricName.testLoss, MetricName.testAcc] :=
  ⟨_, _, rfl, rfl⟩

/-- Behaviour of the `train_classifier` epoch loop over any remaining epoch
list, with non-empty dataloaders: it succeeds; the printed epochs are exactly
those satisfying the logging condition; per epoch exactly one append event
batch occurs, with keys in source order; and each metric sequence of the log
grows by exactly one value per epoch, appended at the end. -/
theorem tcGo_ok (tb eb : List β) (max_epochs log_every : ℕ)
    (htb : tb ≠ []) (heb : eb ≠ []) :
    ∀ (l : List ℕ) (s : σ) (L : Logs) (printed : List ℕ)
      (evss : List (List (MetricName × ℚ))),
    ∃ s2 L2 evsAdd,
      tcGo model loss_func accuracy optStep tb eb max_epochs log_every
          l s L printed evss =
        .ok (s2, L2,
          printed ++ l.filter (fun e => (e + 1) % log_every == 0 || (e + 1) == max_epochs),
          evss ++ evsAdd)
      ∧ evsAdd.length = l.length
      ∧ (∀ evs ∈ evsAdd, evs.map Prod.fst =
          [MetricName.trainLoss, MetricName.testLoss, MetricName.trainAcc, MetricName.testAcc])
      ∧ ∃ addT addE addTA addEA : List ℚ,
          addT.length = l.length ∧ addE.length = l.length
          ∧ addTA.length = l.length ∧ addEA.length = l.length
          ∧ L2.train_loss = L.train_loss ++ addT ∧ L2.test_loss = L.test_loss ++ addE
          ∧ L2.train_acc = L.train_acc ++ addTA ∧ L2.test_acc = L.test_acc ++ addEA := by
  intro l
  induction l with
  | nil =>
    intro s L printed evss
    exact ⟨s, L, [], by simp [tcGo], rfl, by simp,
      [], [], [], [], rfl, rfl, rfl, rfl, by simp, by simp, by simp, by simp⟩
  | cons e rest ih =>
    intro s L printed evss
    obtain ⟨s1, tl, el, ta, ea, hep⟩ :=
      tcEpoch_ok model loss_func accuracy optStep tb eb htb heb s L
    set L1 := applyAppends L (tcEpochAppends tl el ta ea) with hL1
    set printed2 :=
      if (e + 1) % log_every == 0 || (e + 1) == max_epochs then printed ++ [e] else printed
      with hprinted2
    obtain ⟨s2, L2, evsAdd, hgo, hlenEvs, hnames, addT, addE, addTA, addEA,
      hlT, hlE, hlTA, hlEA, hT, hE, hTA, hEA⟩ :=
      ih s1 L1 printed2 (evss ++ [tcEpochAppends tl el ta ea])
    refine ⟨s2, L2, tcEpochAppends tl el ta ea :: evsAdd, ?_, by simp [hlenEvs], ?_,
      tl :: addT, el :: addE, ta :: addTA, ea :: addEA,
      by simp [hlT], by simp [hlE], by simp [hlTA], by simp [hlEA], ?_, ?_, ?_, ?_⟩
    · rw [tcGo, hep]
      show tcGo model loss_func accuracy optStep tb eb max_epochs log_every
        rest s1 L1 printed2 (evss ++ [tcEpochAppends tl el ta ea]) = _
      rw [hgo, List.filter_cons]
      by_cases hcond : ((e + 1) % log_every == 0 || (e + 1) == max_epochs) = true
      · rw [hprinted2, if_pos hcond, if_pos hcond]
        simp
      · rw [hprinted2, if_neg hcond, if_neg hcond]
        simp
    · intro evs hevs
      rcases List.mem_cons.mp hevs with hhd | htl2
      · rw [hhd]
        rfl
      · exact hnames evs htl2
    · rw [hT, hL1, applyAppends_tcEpochAppends]
      simp
    · rw [hE, hL1, applyAppends_tcEpochAppends]
      simp
    · rw [hTA, hL1, applyAppends_tcEpochAppends]
      simp
    · rw [hEA, hL1, applyAppends_tcEpochAppends]
      simp

end TrainingLoopFacts

section TrainingLoopFacts2

variable {σ β γ : Type}
variable (model : σ → Bool → β → γ)
variable (loss_func : γ → β → ℚ)
variable (accuracy : γ → β → ℚ)
variable (optStep : σ → β → σ)

/-- Behaviour of the inline notebook epoch loop over any remaining epoch list:
the printed epochs are exactly those satisfying its logging condition
(`epoch % log_every == 0` or final); per epoch exactly one append event batch
occurs, with keys in its source order; each metric sequence grows by exactly
one value per epoch, appended at the end. -/
theorem nbGo_spec (tb eb : List β) (max_epochs log_every : ℕ) :
    ∀ (l : List ℕ) (s : σ) (R : Logs) (printed : List ℕ)
      (evss : List (List (MetricName × ℚ))),
    ∃ s2 R2 evsAdd,
      nbGo model loss_func accuracy optStep tb eb max_epochs log_every
          l s R printed evss =
        (s2, R2,
          printed ++ l.filter (fun e => e % log_every == 0 || (e + 1) == max_epochs),
          evss ++ evsAdd)
      ∧ evsAdd.length = l.length
      ∧ (∀ evs ∈ evsAdd, evs.map Prod.fst =
          [MetricName.trainLoss, MetricName.trainAcc, MetricName.testLoss, MetricName.testAcc])
      ∧ ∃ addT addE addTA addEA : List ℚ,
          addT.length = l.length ∧ addE.length = l.length
          ∧ addTA.length = l.length ∧ addEA.length = l.length
          ∧ R2.train_loss = R.train_loss ++ addT ∧ R2.test_loss = R.test_loss ++ addE
          ∧ R2.train_acc = R.train_acc ++ addTA ∧ R2.test_acc = R.test_acc ++ addEA := by
  intro l
  induction l with
  | nil =>
    intro s R printed evss
    exact ⟨s, R, [], by simp [nbGo], rfl, by simp,
      [], [], [], [], rfl, rfl, rfl, rfl, by simp, by simp, by simp, by simp⟩
  | cons e rest ih =>
    intro s R printed evss
    obtain ⟨s1, evs1, hep, hnames1⟩ := nbEpoch_spec model loss_func accuracy optStep tb eb s R
    set R1 := applyAppends R evs1 with hR1
    set printed2 :=
      if e % log_every == 0 || (e + 1) == max_epochs then printed ++ [e] else printed
      with hprinted2
    obtain ⟨s2, R2, evsAdd, hgo, hlenEvs, hnames, addT, addE, addTA, addEA,
      hlT, hlE, hlTA, hlEA, hT, hE, hTA, hEA⟩ := ih s1 R1 printed2 (evss ++ [evs1])
    have hevs1 : ∃ a b c d, evs1 = nbEpochAppends a b c d := by
      have := hnames1
      match evs1, this with
      | [(.trainLoss, a), (.trainAcc, b), (.testLoss, c), (.testAcc, d)], _ =>
        exact ⟨a, b, c, d, rfl⟩
    obtain ⟨a, b, c, d, hevs1eq⟩ := hevs1
    refine ⟨s2, R2, evs1 :: evsAdd, ?_, by simp [hlenEvs], ?_,
      a :: addT, c :: addE, b :: addTA, d :: addEA,
      by simp [hlT], by simp [hlE], by simp [hlTA], by simp [hlEA], ?_, ?_, ?_, ?_⟩
    · rw [nbGo, hep]
      show nbGo model loss_func accuracy optStep tb eb max_epochs log_every
        rest s1 R1 printed2 (evss ++ [evs1]) = _
      rw [hgo, List.filter_cons]
      by_cases hcond : (e % log_every == 0 || (e + 1) == max_epochs) = true
      · rw [hprinted2, if_pos hcond, if_pos hcond]
        simp
      · rw [hprinted2, if_neg hcond, if_neg hcond]
        simp
    · intro evs hevs
      rcases List.mem_cons.mp hevs with hhd | htl2
      · rw [hhd]
        exact hnames1
      · exact hnames evs htl2
    · rw [hT, hR1, hevs1eq, applyAppends_nbEpochAppends]
      simp
    · rw [hE, hR1, hevs1eq, applyAppends_nbEpochAppends]
      simp
    · rw [hTA, hR1, hevs1eq, applyAppends_nbEpochAppends]
      simp
    · rw [hEA, hR1, hevs1eq, applyAppends_nbEpochAppends]
      simp

end TrainingLoopFacts2

section LoopClaims

variable {σ β γ : Type}
variable (model : σ → Bool → β → γ)
variable (loss_func : γ → β → ℚ)
variable (accuracy : γ → β → ℚ)
variable (optStep : σ → β → σ)

/-- C6 counterexample: with an empty train dataloader, `train_classifier`
does **not** fail with an `EmptyIterator` error — the failure it produces is
the Python `ZeroDivisionError` raised by the metric-append division
`train_loss_epoch_sum / len(train_dataloader)`. -/
theorem empty_iterator_counterexample :
    train_classifier exModel exLoss exAcc exStep ([] : List Unit) [()] 1 1 () exLogsEmpty =
      .error .zeroDivisionError
    ∧ train_classifier exModel exLoss exAcc exStep ([] : List Unit) [()] 1 1 () exLogsEmpty ≠
      .error .emptyIterator := by
  have heval : train_classifier exModel exLoss exAcc exStep ([] : List Unit) [()] 1 1 ()
      exLogsEmpty = .error .zeroDivisionError := rfl
  refine ⟨heval, ?_⟩
  rw [heval]
  simp

/-- C6 (amended): whenever the train iterator or the eval iterator yields zero
batches in a (non-empty) run, `train_classifier` fails — but with the
unhandled Python `ZeroDivisionError` from the first zero-denominator mean
`sum / len(dataloader)`, not with an explicit `EmptyIterator` error (no such
error kind exists in the code).  No NaN metric is recorded in the returned
log by this failure. -/
theorem empty_iterator_zero_division (tb eb : List β) (max_epochs log_every : ℕ)
    (hm : max_epochs ≠ 0) (h : tb = [] ∨ eb = []) (s : σ) (L : Logs) :
    train_classifier model loss_func accuracy optStep tb eb max_epochs log_every s L =
      .error .zeroDivisionError := by
  obtain ⟨k, rfl⟩ : ∃ k, max_epochs = k + 1 := ⟨max_epochs - 1, by omega⟩
  rw [train_classifier, List.range_succ_eq_map, tcGo,
    tcEpoch_empty model loss_func accuracy optStep tb eb h s L]
  rfl

/-- Witness for C6 (amended) at a concrete empty train dataloader. -/
theorem empty_iterator_zero_division_witness :
    (1 : ℕ) ≠ 0 ∧ (([] : List Unit) = [] ∨ ([()] : List Unit) = [])
    ∧ train_classifier exModel exLoss exAcc exStep ([] : List Unit) [()] 1 1 () exLogsEmpty =
      .error .zeroDivisionError :=
  ⟨by decide, Or.inl rfl,
    empty_iterator_zero_division exModel exLoss exAcc exStep ([] : List Unit) [()] 1 1
      (by decide) (Or.inl rfl) () exLogsEmpty⟩

/-- C7 counterexample: the inline notebook training loop (`max_epochs = 3`,
`log_every = 5`) prints a progress line after epoch 0 — where
`(0 + 1) % 5 ≠ 0` and epoch 0 is not final — because its condition is
`epoch % log_every == 0`, not `(epoch + 1) % log_every == 0`; so the printed
epochs `[0, 2]` differ from the claimed `[2]`. -/
theorem progress_line_counterexample :
    (nbTrainingLoop exModel exLoss exAcc exStep [()] [()] 3 5 () exLogsEmpty).2.2.1 = [0, 2]
    ∧ [0, 2] ≠
      (List.range 3).filter (fun e => (e + 1) % 5 == 0 || (e + 1) == 3) :=
  ⟨by decide, by decide⟩

/-- C7 (amended): in a successful `train_classifier` run a progress line is
emitted after epoch `e` exactly when `(e + 1) % log_every == 0` or `e` is the
final epoch, and at no other epoch boundary; in the inline notebook loop it is
emitted exactly when `e % log_every == 0` or `e` is the final epoch. -/
theorem progress_line_timing (tb eb : List β) (max_epochs log_every : ℕ)
    (htb : tb ≠ []) (heb : eb ≠ []) (s : σ) (L : Logs) :
    (∃ r, train_classifier model loss_func accuracy optStep tb eb max_epochs log_every s L =
        .ok r
      ∧ r.2.2.1 = (List.range max_epochs).filter
          (fun e => (e + 1) % log_every == 0 || (e + 1) == max_epochs))
    ∧ (nbTrainingLoop model loss_func accuracy optStep tb eb max_epochs log_every s L).2.2.1 =
        (List.range max_epochs).filter
          (fun e => e % log_every == 0 || (e + 1) == max_epochs) := by
  constructor
  · obtain ⟨s2, L2, evsAdd, hgo, -⟩ :=
      tcGo_ok model loss_func accuracy optStep tb eb max_epochs log_every htb heb
        (List.range max_epochs) s L [] []
    rw [train_classifier, hgo]
    exact ⟨_, rfl, by simp⟩
  · obtain ⟨s2, R2, evsAdd, hgo, -⟩ :=
      nbGo_spec model loss_func accuracy optStep tb eb max_epochs log_every
        (List.range max_epochs) s L [] []
    rw [nbTrainingLoop, hgo]
    simp

/-- Witness for C7 (amended) at a concrete one-batch instance. -/
theorem progress_line_timing_witness :
    ([()] : List Unit) ≠ [] ∧ ([()] : List Unit) ≠ []
    ∧ ((∃ r, train_classifier exModel exLoss exAcc exStep [()] [()] 3 5 () exLogsEmpty = .ok r
        ∧ r.2.2.1 = (List.range 3).filter (fun e => (e + 1) % 5 == 0 || (e + 1) == 3))
      ∧ (nbTrainingLoop exModel exLoss exAcc exStep [()] [()] 3 5 () exLogsEmpty).2.2.1 =
          (List.range 3).filter (fun e => e % 5 == 0 || (e + 1) == 3)) :=
  ⟨by decide, by decide,
    progress_line_timing exModel exLoss exAcc exStep [()] [()] 3 5
      (by decide) (by decide) () exLogsEmpty⟩

/-- C8 counterexample: in the inline notebook loop, the append events of a
completed epoch occur in the source order train loss, train **accuracy**,
validation loss, validation accuracy — not in the claimed order train loss,
eval loss, train accuracy, eval accuracy. -/
theorem metric_append_order_counterexample :
    ((nbTrainingLoop exModel exLoss exAcc exStep [()] [()] 1 1 () exLogsEmpty).2.2.2).map
        (fun evs => evs.map Prod.fst) =
      [[MetricName.trainLoss, MetricName.trainAcc, MetricName.testLoss, MetricName.testAcc]]
    ∧ [[MetricName.trainLoss, MetricName.trainAcc, MetricName.testLoss, MetricName.testAcc]] ≠
      [[MetricName.trainLoss, MetricName.testLoss, MetricName.trainAcc, MetricName.testAcc]] :=
  ⟨by decide, by decide⟩

/-- C8 (amended): at the end of every completed epoch each loop appends
exactly one value to each metric sequence, each at position
`len(existing values)` (appended at the end, never overwriting or reordering
earlier entries).  `train_classifier` appends in the claimed order — mean
train loss, mean eval loss, mean train accuracy, mean eval accuracy — while
the inline notebook loop appends mean train loss, mean train accuracy, mean
validation loss, mean validation accuracy. -/
theorem metric_append_order (tb eb : List β) (htb : tb ≠ []) (heb : eb ≠ [])
    (s : σ) (L : Logs) :
    (∃ s2 evs, tcEpoch model loss_func accuracy optStep tb eb s L =
        .ok (s2, applyAppends L evs, evs)
      ∧ evs.map Prod.fst =
        [MetricName.trainLoss, MetricName.testLoss, MetricName.trainAcc, MetricName.testAcc])
    ∧ (∀ a b c d : ℚ, applyAppends L (tcEpochAppends a b c d) =
        ⟨L.train_loss ++ [a], L.test_loss ++ [b], L.train_acc ++ [c], L.test_acc ++ [d]⟩)
    ∧ (∃ s2 evs, nbEpoch model loss_func accuracy optStep tb eb s L =
        (s2, applyAppends L evs, evs)
      ∧ evs.map Prod.fst =
        [MetricName.trainLoss, MetricName.trainAcc, MetricName.testLoss, MetricName.testAcc])
    ∧ (∀ a b c d : ℚ, applyAppends L (nbEpochAppends a b c d) =
        ⟨L.train_loss ++ [a], L.test_loss ++ [c], L.train_acc ++ [b], L.test_acc ++ [d]⟩) := by
  refine ⟨?_, fun a b c d => rfl, ?_, fun a b c d => rfl⟩
  · obtain ⟨s2, tl, el, ta, ea, hep⟩ :=
      tcEpoch_ok model loss_func accuracy optStep tb eb htb heb s L
    exact ⟨s2, tcEpochAppends tl el ta ea, hep, rfl⟩
  · exact nbEpoch_spec model loss_func accuracy optStep tb eb s L

/-- Witness for C8 (amended) at a concrete one-batch instance. -/
theorem metric_append_order_witness :
    ([()] : List Unit) ≠ [] ∧ ([()] : List Unit) ≠ []
    ∧ ((∃ s2 evs, tcEpoch exModel exLoss exAcc exStep [()] [()] () exLogsEmpty =
          .ok (s2, applyAppends exLogsEmpty evs, evs)
        ∧ evs.map Prod.fst =
          [MetricName.trainLoss, MetricName.testLoss, MetricName.trainAcc, MetricName.testAcc])
      ∧ (∀ a b c d : ℚ, applyAppends exLogsEmpty (tcEpochAppends a b c d) =
          ⟨exLogsEmpty.train_loss ++ [a], exLogsEmpty.test_loss ++ [b],
            exLogsEmpty.train_acc ++ [c], exLogsEmpty.test_acc ++ [d]⟩)
      ∧ (∃ s2 evs, nbEpoch exModel exLoss exAcc exStep [()] [()] () exLogsEmpty =
          (s2, applyAppends exLogsEmpty evs, evs)
        ∧ evs.map Prod.fst =
          [MetricName.trainLoss, MetricName.trainAcc, MetricName.testLoss, MetricName.testAcc])
      ∧ (∀ a b c d : ℚ, applyAppends exLogsEmpty (nbEpochAppends a b c d) =
          ⟨exLogsEmpty.train_loss ++ [a], exLogsEmpty.test_loss ++ [c],
            exLogsEmpty.train_acc ++ [b], exLogsEmpty.test_acc ++ [d]⟩)) :=
  ⟨by decide, by decide,
    metric_append_order exModel exLoss exAcc exStep [()] [()]
      (by decide) (by decide) () exLogsEmpty⟩

/-- C9: resumability.  With non-empty dataloaders, running `train_classifier`
for 5 epochs and then running it again for 5 epochs — passing in the model and
optimizer state `r1.1` and the metric log `r1.2.1` left by the first call —
succeeds, and leaves every metric sequence with exactly `len(initial) + 10`
entries: the initial entries, followed by the 5 entries of the first call,
followed in epoch order by the 5 entries of the second call; earlier entries
are never overwritten or reordered. -/
theorem training_resumable (tb eb : List β) (log_every : ℕ)
    (htb : tb ≠ []) (heb : eb ≠ []) (s : σ) (L : Logs) :
    ∃ r1 r2,
      train_classifier model loss_func accuracy optStep tb eb 5 log_every s L = .ok r1
      ∧ train_classifier model loss_func accuracy optStep tb eb 5 log_every
          r1.1 r1.2.1 = .ok r2
      ∧ ∃ addT1 addE1 addTA1 addEA1 addT2 addE2 addTA2 addEA2 : List ℚ,
          addT1.length = 5 ∧ addE1.length = 5 ∧ addTA1.length = 5 ∧ addEA1.length = 5
          ∧ addT2.length = 5 ∧ addE2.length = 5 ∧ addTA2.length = 5 ∧ addEA2.length = 5
          ∧ r1.2.1.train_loss = L.train_loss ++ addT1
          ∧ r1.2.1.test_loss = L.test_loss ++ addE1
          ∧ r1.2.1.train_acc = L.train_acc ++ addTA1
          ∧ r1.2.1.test_acc = L.test_acc ++ addEA1
          ∧ r2.2.1.train_loss = L.train_loss ++ addT1 ++ addT2
          ∧ r2.2.1.test_loss = L.test_loss ++ addE1 ++ addE2
          ∧ r2.2.1.train_acc = L.train_acc ++ addTA1 ++ addTA2
          ∧ r2.2.1.test_acc = L.test_acc ++ addEA1 ++ addEA2
          ∧ r2.2.1.train_loss.length = L.train_loss.length + 10
          ∧ r2.2.1.test_loss.length = L.test_loss.length + 10
          ∧ r2.2.1.train_acc.length = L.train_acc.length + 10
          ∧ r2.2.1.test_acc.length = L.test_acc.length + 10 := by
  obtain ⟨s1, L1, evsAdd1, hgo1, -, -, addT1, addE1, addTA1, addEA1,
    hlT1, hlE1, hlTA1, hlEA1, hT1, hE1, hTA1, hEA1⟩ :=
    tcGo_ok model loss_func accuracy optStep tb eb 5 log_every htb heb
      (List.range 5) s L [] []
  obtain ⟨s2, L2, evsAdd2, hgo2, -, -, addT2, addE2, addTA2, addEA2,
    hlT2, hlE2, hlTA2, hlEA2, hT2, hE2, hTA2, hEA2⟩ :=
    tcGo_ok model loss_func accuracy optStep tb eb 5 log_every htb heb
      (List.range 5) s1 L1 [] []
  have h5 : (List.range 5).length = 5 := by simp
  refine ⟨_, _, by rw [train_classifier, hgo1], by rw [train_classifier, hgo2], ?_⟩
  rw [h5] at hlT1 hlE1 hlTA1 hlEA1 hlT2 hlE2 hlTA2 hlEA2
  refine ⟨addT1, addE1, addTA1, addEA1, addT2, addE2, addTA2, addEA2,
    hlT1, hlE1, hlTA1, hlEA1, hlT2, hlE2, hlTA2, hlEA2,
    hT1, hE1, hTA1, hEA1, ?_, ?_, ?_, ?_, ?_, ?_, ?_, ?_⟩
  · rw [hT2, hT1, List.append_assoc]
  · rw [hE2, hE1, List.append_assoc]
  · rw [hTA2, hTA1, List.append_assoc]
  · rw [hEA2, hEA1, List.append_assoc]
  · rw [hT2, hT1]
    simp [hlT1, hlT2]
  · rw [hE2, hE1]
    simp [hlE1, hlE2]
  · rw [hTA2, hTA1]
    simp [hlTA1, hlTA2]
  · rw [hEA2, hEA1]
    simp [hlEA1, hlEA2]

/-- Witness for C9 at a concrete one-batch instance. -/
theorem training_resumable_witness :
    ([()] : List Unit) ≠ [] ∧ ([()] : List Unit) ≠ []
    ∧ ∃ r1 r2,
      train_classifier exModel exLoss exAcc exStep [()] [()] 5 5 () exLogsEmpty = .ok r1
      ∧ train_classifier exModel exLoss exAcc exStep [()] [()] 5 5 r1.1 r1.2.1 = .ok r2
      ∧ ∃ addT1 addE1 addTA1 addEA1 addT2 addE2 addTA2 addEA2 : List ℚ,
          addT1.length = 5 ∧ addE1.length = 5 ∧ addTA1.length = 5 ∧ addEA1.length = 5
          ∧ addT2.length = 5 ∧ addE2.length = 5 ∧ addTA2.length = 5 ∧ addEA2.length = 5
          ∧ r1.2.1.train_loss = exLogsEmpty.train_loss ++ addT1
          ∧ r1.2.1.test_loss = exLogsEmpty.test_loss ++ addE1
          ∧ r1.2.1.train_acc = exLogsEmpty.train_acc ++ addTA1
          ∧ r1.2.1.test_acc = exLogsEmpty.test_acc ++ addEA1
          ∧ r2.2.1.train_loss = exLogsEmpty.train_loss ++ addT1 ++ addT2
          ∧ r2.2.1.test_loss = exLogsEmpty.test_loss ++ addE1 ++ addE2
          ∧ r2.2.1.train_acc = exLogsEmpty.train_acc ++ addTA1 ++ addTA2
          ∧ r2.2.1.test_acc = exLogsEmpty.test_acc ++ addEA1 ++ addEA2
          ∧ r2.2.1.train_loss.length = exLogsEmpty.train_loss.length + 10
          ∧ r2.2.1.test_loss.length = exLogsEmpty.test_loss.length + 10
          ∧ r2.2.1.train_acc.length = exLogsEmpty.train_acc.length + 10
          ∧ r2.2.1.test_acc.length = exLogsEmpty.test_acc.length + 10 :=
  ⟨by decide, by decide,
    training_resumable exModel exLoss exAcc exStep [()] [()] 5
      (by decide) (by decide) () exLogsEmpty⟩

end LoopClaims
